import Mathlib

/-!
Verification development for the crusty-request terminal HTTP client.

This file gives a shallow embedding, in Lean 4, of the interactive state
machine of the application (src/key_value.rs, src/app.rs, src/main.rs and
the pure request-construction part of src/network.rs), and proves or
refutes the frozen specification claims about it.

Rust `String` is modelled as Lean `String` (with character-level helpers on
`List Char`); `usize`/`u16` are modelled as `Nat` (with explicit saturation
where the source saturates); `Option`/`Result` become `Option`/`Except`.
The tui_textarea `TextArea` is modelled by its list of lines, which is the
only part of it the embedded code observes (`lines()`, `TextArea::new`,
`TextArea::default`, each of which guarantees at least one line).
-/

set_option maxRecDepth 4000

namespace CrustyRequest

/-! ## Character-level helpers for Rust string primitives -/

/-- The Unicode `White_Space` code points, as used by Rust's
`char::is_whitespace` (and hence `str::trim`). -/
def rustIsWhitespace (c : Char) : Bool :=
  let n := c.toNat
  n = 0x09 || n = 0x0A || n = 0x0B || n = 0x0C || n = 0x0D || n = 0x20 ||
  n = 0x85 || n = 0xA0 || n = 0x1680 ||
  (0x2000 ≤ n && n ≤ 0x200A) ||
  n = 0x2028 || n = 0x2029 || n = 0x202F || n = 0x205F || n = 0x3000

/-- `str::trim` on a character list: drop whitespace from both ends. -/
def trimL (cs : List Char) : List Char :=
  ((cs.dropWhile rustIsWhitespace).reverse.dropWhile rustIsWhitespace).reverse

/-- Rust `str::trim`, modelled on the character list of the string. -/
def rustTrim (s : String) : String :=
  String.mk (trimL s.data)

/-- Rust `String::push`: append one character. -/
def rustPush (s : String) (c : Char) : String :=
  String.mk (s.data ++ [c])

/-- Rust `String::pop`: remove the last character (no-op on the empty
string), keeping only the string (the popped character is discarded by all
call sites in the source). -/
def rustPop (s : String) : String :=
  String.mk s.data.dropLast

/-- ASCII lowercasing of a single character (Rust `u8::to_ascii_lowercase`). -/
def asciiLower (c : Char) : Char :=
  if 65 ≤ c.toNat && c.toNat ≤ 90 then Char.ofNat (c.toNat + 32) else c

/-- Rust `str::eq_ignore_ascii_case`. -/
def eqIgnoreAsciiCase (a b : String) : Bool :=
  a.data.map asciiLower == b.data.map asciiLower

/-! ## src/key_value.rs: KeyValueEntry / KeyValueEntries -/

/-- `KeyValueEntry` (src/key_value.rs): one editable row. -/
structure KeyValueEntry where
  key : String
  value : String
  enabled : Bool
deriving Repr, DecidableEq

/-- `KeyValueField` (src/key_value.rs): which column of a row is focused. -/
inductive KeyValueField where
  | key
  | value
deriving Repr, DecidableEq

/-- `KeyValueEntries` (src/key_value.rs): the editable table with its
two-axis cursor. -/
structure KeyValueEntries where
  entries : List KeyValueEntry
  focused_index : Nat
  focused_field : KeyValueField
deriving Repr, DecidableEq

namespace KeyValueEntries

/-- `KeyValueEntries::new`. -/
def new : KeyValueEntries :=
  { entries := [], focused_index := 0, focused_field := KeyValueField.key }

/-- `KeyValueEntries::add_entry`: push an enabled row at the end. -/
def add_entry (es : KeyValueEntries) (key value : String) : KeyValueEntries :=
  { es with entries := es.entries ++ [{ key := key, value := value, enabled := true }] }

/-- `KeyValueEntries::remove_entry`: remove the row at `index` when in range. -/
def remove_entry (es : KeyValueEntries) (index : Nat) : KeyValueEntries :=
  if index < es.entries.length then
    { es with entries := es.entries.eraseIdx index }
  else es

/-- `KeyValueEntries::toggle_enabled`: flip `enabled` of the row at `index`
when in range (`get_selected_mut` returns `None` out of range). -/
def toggle_enabled (es : KeyValueEntries) (index : Nat) : KeyValueEntries :=
  match es.entries.get? index with
  | some e =>
    { es with entries := es.entries.set index { e with enabled := !e.enabled } }
  | none => es

end KeyValueEntries

/-! ### The key-value editing operations of the run_app event loop
(src/main.rs).  Each operation below is the body of the corresponding
match arm, which acts on the active tab's `KeyValueEntries` through
`get_active_tab_mut`. -/

/-- `KeyCode::Up` on the RequestDetails pane (src/main.rs, Normal mode):
decrement `focused_index` when positive. -/
def kvUp (es : KeyValueEntries) : KeyValueEntries :=
  if es.focused_index > 0 then { es with focused_index := es.focused_index - 1 } else es

/-- `KeyCode::Down` on the RequestDetails pane (src/main.rs, Normal mode):
increment `focused_index` under the guard `focused_index <= entries.len()`
(the source comment reads "Allow navigating one past the end (for adding
new entry)"). -/
def kvDown (es : KeyValueEntries) : KeyValueEntries :=
  if es.focused_index ≤ es.entries.length then
    { es with focused_index := es.focused_index + 1 }
  else es

/-- `KeyCode::Tab` in Editing mode on RequestDetails (src/main.rs):
toggle the focused field. -/
def kvSwitchField (es : KeyValueEntries) : KeyValueEntries :=
  { es with focused_field :=
      match es.focused_field with
      | KeyValueField.key => KeyValueField.value
      | KeyValueField.value => KeyValueField.key }

/-- `KeyCode::Enter` in Editing mode on RequestDetails (src/main.rs):
materialize an empty row when on (or past) the new-row slot, advance the
cursor, clamp it to `entries.len()`, and reset the field to Key. -/
def kvCommitRow (es : KeyValueEntries) : KeyValueEntries :=
  let es := if es.focused_index ≥ es.entries.length then es.add_entry "" "" else es
  let es := { es with focused_index := es.focused_index + 1 }
  let es :=
    if es.focused_index > es.entries.length then
      { es with focused_index := es.entries.length }
    else es
  { es with focused_field := KeyValueField.key }

/-- `KeyCode::Delete`/Ctrl-D in Editing mode on RequestDetails
(src/main.rs): remove the focused row when real, then pull the cursor back
onto an existing row when it fell past the end. -/
def kvDeleteRow (es : KeyValueEntries) : KeyValueEntries :=
  if es.focused_index < es.entries.length then
    let es := { es with entries := es.entries.eraseIdx es.focused_index }
    if es.focused_index ≥ es.entries.length ∧ es.focused_index > 0 then
      { es with focused_index := es.focused_index - 1 }
    else es
  else es

/-- Append a character to the focused field of a row (the two identical
match blocks inside the `KeyCode::Char(c)` arm of src/main.rs). -/
def kvPushField (e : KeyValueEntry) (f : KeyValueField) (c : Char) : KeyValueEntry :=
  match f with
  | KeyValueField.key => { e with key := rustPush e.key c }
  | KeyValueField.value => { e with value := rustPush e.value c }

/-- `KeyCode::Char(c)` in Editing mode on RequestDetails (src/main.rs):
append to the focused field of the focused row; on the new-row slot first
materialize an empty row, then append through a second `get_selected_mut`
at the unchanged `focused_index`. -/
def kvTypeChar (c : Char) (es : KeyValueEntries) : KeyValueEntries :=
  match es.entries.get? es.focused_index with
  | some e =>
    { es with entries := es.entries.set es.focused_index (kvPushField e es.focused_field c) }
  | none =>
    if es.focused_index ≥ es.entries.length then
      let es2 := es.add_entry "" ""
      match es2.entries.get? es2.focused_index with
      | some e =>
        { es2 with entries := es2.entries.set es2.focused_index (kvPushField e es2.focused_field c) }
      | none => es2
    else es

/-- `KeyCode::Backspace` in Editing mode on RequestDetails (src/main.rs):
pop the last character of the focused field of the focused real row. -/
def kvBackspace (es : KeyValueEntries) : KeyValueEntries :=
  match es.entries.get? es.focused_index with
  | some e =>
    let e2 :=
      match es.focused_field with
      | KeyValueField.key => { e with key := rustPop e.key }
      | KeyValueField.value => { e with value := rustPop e.value }
    { es with entries := es.entries.set es.focused_index e2 }
  | none => es

/-- One navigation/edit operation on the active tab's table, as routed by
run_app (src/main.rs): cursor moves, field switch, typing, backspace, row
commit, row delete, and `toggle_enabled` at the cursor (src/key_value.rs). -/
inductive KVOp where
  | up
  | down
  | switchField
  | typeChar (c : Char)
  | backspace
  | commitRow
  | deleteRow
  | toggle
deriving Repr, DecidableEq

/-- Apply one `KVOp` to a table. -/
def applyKVOp (es : KeyValueEntries) : KVOp → KeyValueEntries
  | KVOp.up => kvUp es
  | KVOp.down => kvDown es
  | KVOp.switchField => kvSwitchField es
  | KVOp.typeChar c => kvTypeChar c es
  | KVOp.backspace => kvBackspace es
  | KVOp.commitRow => kvCommitRow es
  | KVOp.deleteRow => kvDeleteRow es
  | KVOp.toggle => es.toggle_enabled es.focused_index

/-! ## src/app.rs: App state, body buffer, history -/

/-- `HttpMethod` (src/app.rs). -/
inductive HttpMethod where
  | GET
  | POST
  | PUT
  | DELETE
  | PATCH
deriving Repr, DecidableEq

/-- `InputMode` (src/app.rs). -/
inductive InputMode where
  | normal
  | editing
deriving Repr, DecidableEq

/-- `FocusedPane` (src/app.rs). -/
inductive FocusedPane where
  | method
  | url
  | requestDetails
  | body
  | response
deriving Repr, DecidableEq

/-- `RequestTab` (src/app.rs). -/
inductive RequestTab where
  | params
  | headers
  | authorization
deriving Repr, DecidableEq

/-- `RequestHistoryEntry` (src/app.rs); the timestamp is the seconds value
taken from the system clock at creation time, supplied here as an explicit
argument. -/
structure RequestHistoryEntry where
  method : HttpMethod
  url : String
  headers : KeyValueEntries
  params : KeyValueEntries
  auth : KeyValueEntries
  body : String
  timestamp : Nat
deriving Repr, DecidableEq

/-- `App` (src/app.rs). `body_input` is the `TextArea` modelled by its list
of lines (tui_textarea keeps at least one line at all times). -/
structure App where
  running : Bool
  input_mode : InputMode
  focused_pane : FocusedPane
  method : HttpMethod
  url_input : String
  active_request_tab : RequestTab
  headers : KeyValueEntries
  params : KeyValueEntries
  authorization : KeyValueEntries
  body_input : List String
  response_text : Option String
  response_status : Option Nat
  response_scroll : Nat
  history : List RequestHistoryEntry
  history_index : Option Nat
  validation_error : Option (Nat × Nat × String)
deriving Repr, DecidableEq

namespace App

/-- `App::new` (src/app.rs); `TextArea::default()` is a single empty line. -/
def new : App :=
  { running := true
    input_mode := InputMode.normal
    focused_pane := FocusedPane.url
    method := HttpMethod.GET
    url_input := ""
    active_request_tab := RequestTab.headers
    headers := KeyValueEntries.new
    params := KeyValueEntries.new
    authorization := KeyValueEntries.new
    body_input := [""]
    response_text := none
    response_status := none
    response_scroll := 0
    history := []
    history_index := none
    validation_error := none }

end App

/-! ### The body buffer: Rust `str::lines` and `join("\n")` -/

/-- Strip one trailing carriage return (the second step of the `LinesMap`
closure inside Rust's `str::lines`). -/
def stripCRL (l : List Char) : List Char :=
  if l.getLast? = some '\r' then l.dropLast else l

/-- The accumulator-passing core of Rust `str::lines`: split at each
newline, strip a carriage return preceding the newline, and drop a final
empty segment (the final line ending is optional). `acc` holds the current
line reversed. -/
def linesAux : List Char → List Char → List (List Char)
  | acc, [] => if acc.isEmpty then [] else [acc.reverse]
  | acc, c :: rest =>
    if c = '\n' then stripCRL acc.reverse :: linesAux [] rest
    else linesAux (c :: acc) rest

/-- Rust `str::lines` on a character list. -/
def rustLinesL (cs : List Char) : List (List Char) :=
  linesAux [] cs

/-- Join lines with a newline separator (Rust `[String]::join("\n")`);
the last line gets no trailing newline. -/
def joinNl : List (List Char) → List Char
  | [] => []
  | [l] => l
  | l :: ls => l ++ '\n' :: joinNl ls

/-- `TextArea::new(lines)` (tui_textarea): an empty line vector becomes a
single empty line. -/
def textAreaNewL (ls : List (List Char)) : List (List Char) :=
  if ls = [] then [[]] else ls

/-- `App::get_body_text` (src/app.rs): `self.body_input.lines().join("\n")`. -/
def get_body_text (body_input : List String) : String :=
  String.mk (joinNl (body_input.map String.data))

/-- `App::set_body_text` (src/app.rs):
`TextArea::new(text.lines().map(String::from).collect())`. -/
def set_body_text (text : String) : List String :=
  (textAreaNewL (rustLinesL text.data)).map String.mk

namespace App

/-- `App::save_to_history` (src/app.rs): snapshot the current request into
a `RequestHistoryEntry`, append it, and reset the browsing index. -/
def save_to_history (a : App) (timestamp : Nat) : App :=
  { a with
      history := a.history ++
        [{ method := a.method
           url := a.url_input
           headers := a.headers
           params := a.params
           auth := a.authorization
           body := get_body_text a.body_input
           timestamp := timestamp }]
      history_index := none }

/-- `App::load_from_history` (src/app.rs): copy the entry at `index` (when
present) into the builder fields and point the browsing index at it. -/
def load_from_history (a : App) (index : Nat) : App :=
  match a.history.get? index with
  | some entry =>
    { a with
        method := entry.method
        url_input := entry.url
        headers := entry.headers
        params := entry.params
        authorization := entry.auth
        body_input := set_body_text entry.body
        history_index := some index }
  | none => a

/-- `App::prev_history` (src/app.rs). -/
def prev_history (a : App) : App :=
  if a.history.isEmpty then a
  else
    let new_index :=
      match a.history_index with
      | none => a.history.length - 1
      | some 0 => 0
      | some idx => idx - 1
    a.load_from_history new_index

/-- `App::next_history` (src/app.rs). -/
def next_history (a : App) : App :=
  if a.history.isEmpty then a
  else
    match a.history_index with
    | none => a
    | some idx =>
      if idx ≥ a.history.length - 1 then { a with history_index := none }
      else a.load_from_history (idx + 1)

end App

/-! ## src/main.rs: the event loop's Normal-mode key routing -/

/-- The key codes the Normal-mode handler of run_app distinguishes. -/
inductive KeyCode where
  | tab
  | enter
  | esc
  | backspace
  | delete
  | left
  | right
  | up
  | down
  | char (c : Char)
deriving Repr, DecidableEq

/-- A key event: code plus whether the control modifier is held. -/
structure KeyEvent where
  code : KeyCode
  ctrl : Bool
deriving Repr, DecidableEq

/-- `App::next_method` (src/app.rs). -/
def nextMethod : HttpMethod → HttpMethod
  | HttpMethod.GET => HttpMethod.POST
  | HttpMethod.POST => HttpMethod.PUT
  | HttpMethod.PUT => HttpMethod.DELETE
  | HttpMethod.DELETE => HttpMethod.PATCH
  | HttpMethod.PATCH => HttpMethod.GET

/-- `App::prev_method` (src/app.rs). -/
def prevMethod : HttpMethod → HttpMethod
  | HttpMethod.GET => HttpMethod.PATCH
  | HttpMethod.POST => HttpMethod.GET
  | HttpMethod.PUT => HttpMethod.POST
  | HttpMethod.DELETE => HttpMethod.PUT
  | HttpMethod.PATCH => HttpMethod.DELETE

/-- `App::next_tab` (src/app.rs). -/
def nextTab : RequestTab → RequestTab
  | RequestTab.headers => RequestTab.params
  | RequestTab.params => RequestTab.authorization
  | RequestTab.authorization => RequestTab.headers

/-- `App::prev_tab` (src/app.rs). -/
def prevTab : RequestTab → RequestTab
  | RequestTab.headers => RequestTab.authorization
  | RequestTab.params => RequestTab.headers
  | RequestTab.authorization => RequestTab.params

/-- Apply a function to the active tab's table
(`App::get_active_tab_mut`, src/app.rs). -/
def updateActiveTab (a : App) (f : KeyValueEntries → KeyValueEntries) : App :=
  match a.active_request_tab with
  | RequestTab.headers => { a with headers := f a.headers }
  | RequestTab.params => { a with params := f a.params }
  | RequestTab.authorization => { a with authorization := f a.authorization }

/-- The `KeyCode::Tab` arm of the Normal-mode match in run_app
(src/main.rs): advance the focused pane around the fixed ring. -/
def nextPane : FocusedPane → FocusedPane
  | FocusedPane.method => FocusedPane.url
  | FocusedPane.url => FocusedPane.requestDetails
  | FocusedPane.requestDetails => FocusedPane.body
  | FocusedPane.body => FocusedPane.response
  | FocusedPane.response => FocusedPane.method

/-- The `KeyCode::Enter` arm of the Normal-mode match in run_app
(src/main.rs): push the current request onto the history and show the
loading sentinel.  The clones handed to the spawned transport task do not
mutate the state and are outside this embedding. -/
def submitStep (a : App) (timestamp : Nat) : App :=
  { a.save_to_history timestamp with response_text := some "Loading..." }

/-- The `KeyCode::Up` arm of the Normal-mode match in run_app
(src/main.rs). -/
def upStep (a : App) : App :=
  if a.focused_pane = FocusedPane.url then a.prev_history
  else if a.focused_pane = FocusedPane.response then
    { a with response_scroll := a.response_scroll - 1 }
  else if a.focused_pane = FocusedPane.requestDetails then
    updateActiveTab a kvUp
  else a

/-- The `KeyCode::Down` arm of the Normal-mode match in run_app
(src/main.rs); `response_scroll` is a `u16` with saturating addition. -/
def downStep (a : App) : App :=
  if a.focused_pane = FocusedPane.url then a.next_history
  else if a.focused_pane = FocusedPane.response then
    { a with response_scroll := min (a.response_scroll + 1) 65535 }
  else if a.focused_pane = FocusedPane.requestDetails then
    updateActiveTab a kvDown
  else a

/-- The whole Normal-mode key handling of one run_app iteration
(src/main.rs, including the global quit check that precedes
the match), given the clock value used for a history timestamp. -/
def handleNormalKey (a : App) (ev : KeyEvent) (timestamp : Nat) : App :=
  let a := if ev.code = KeyCode.char 'q' then { a with running := false } else a
  if ev.code = KeyCode.tab then { a with focused_pane := nextPane a.focused_pane }
  else if ev.code = KeyCode.char 'i' then { a with input_mode := InputMode.editing }
  else if ev.code = KeyCode.enter then submitStep a timestamp
  else if ev.code = KeyCode.right ∨ ev.code = KeyCode.char ' ' then
    if a.focused_pane = FocusedPane.method then { a with method := nextMethod a.method }
    else if a.focused_pane = FocusedPane.requestDetails then
      { a with active_request_tab := nextTab a.active_request_tab }
    else a
  else if ev.code = KeyCode.left then
    if a.focused_pane = FocusedPane.method then { a with method := prevMethod a.method }
    else if a.focused_pane = FocusedPane.requestDetails then
      { a with active_request_tab := prevTab a.active_request_tab }
    else a
  else if ev.code = KeyCode.up then upStep a
  else if ev.code = KeyCode.down then downStep a
  else if ev.code = KeyCode.char 'p' ∧ ev.ctrl then
    if a.focused_pane = FocusedPane.url then a.prev_history else a
  else if ev.code = KeyCode.char 'n' ∧ ev.ctrl then
    if a.focused_pane = FocusedPane.url then a.next_history else a
  else a

/-- The Editing-mode RequestDetails branch of run_app (src/main.rs). -/
def handleDetailsEditKey (a : App) (ev : KeyEvent) : App :=
  if ev.code = KeyCode.esc then { a with input_mode := InputMode.normal }
  else if ev.code = KeyCode.tab then updateActiveTab a kvSwitchField
  else if ev.code = KeyCode.enter then updateActiveTab a kvCommitRow
  else if (ev.code = KeyCode.delete ∨ ev.code = KeyCode.char 'd') ∧ ev.ctrl then
    updateActiveTab a kvDeleteRow
  else
    match ev.code with
    | KeyCode.char c => updateActiveTab a (kvTypeChar c)
    | KeyCode.backspace => updateActiveTab a kvBackspace
    | _ => a

/-- The Editing-mode URL branch of run_app (src/main.rs): reached when the
focused pane is neither Body nor RequestDetails. -/
def handleUrlEditKey (a : App) (ev : KeyEvent) : App :=
  if ev.code = KeyCode.esc then { a with input_mode := InputMode.normal }
  else
    match ev.code with
    | KeyCode.char c =>
      if a.focused_pane = FocusedPane.url then { a with url_input := rustPush a.url_input c }
      else a
    | KeyCode.backspace =>
      if a.focused_pane = FocusedPane.url then { a with url_input := rustPop a.url_input }
      else a
    | _ => a

/-! ### The response inbox poll (src/main.rs) -/

/-- `ApiResponse` (src/network.rs). -/
structure ApiResponse where
  status : Nat
  headers : String
  body : String
deriving Repr, DecidableEq

/-- The non-blocking response-inbox poll of run_app (src/main.rs):
merge one delivered dispatch outcome into the response state. -/
def applyResponse (a : App) (r : Except String ApiResponse) : App :=
  match r with
  | Except.ok resp =>
    { a with response_status := some resp.status, response_text := some resp.body }
  | Except.error errMsg =>
    { a with response_status := none, response_text := some ("Error: " ++ errMsg) }

/-! ## src/network.rs: pure request construction inside make_request

`make_request` is async, but everything up to `builder.send()` is a pure
computation from its arguments: the header map, the query-parameter list,
the final URL, and the optional JSON body attachment.  That pure prefix is
embedded here as `make_request` returning a `BuiltRequest`; the wire-level
send and the response post-processing are the external transport. -/

/-- Valid characters of an HTTP header name (the http crate's
`HeaderName` byte table: RFC 7230 token characters). -/
def isHeaderNameChar (c : Char) : Bool :=
  let n := c.toNat
  (48 ≤ n && n ≤ 57) || (65 ≤ n && n ≤ 90) || (97 ≤ n && n ≤ 122) ||
  n = 33 || n = 35 || n = 36 || n = 37 || n = 38 || n = 39 || n = 42 ||
  n = 43 || n = 45 || n = 46 || n = 94 || n = 95 || n = 96 || n = 124 || n = 126

/-- `HeaderName::from_str` / `from_bytes` (http crate): accepts non-empty
token-character names and canonicalizes them to lowercase. -/
def headerNameFromStr (s : String) : Option String :=
  if s.data ≠ [] ∧ s.data.all isHeaderNameChar then
    some (String.mk (s.data.map asciiLower))
  else none

/-- Valid bytes of an HTTP header value (the http crate's `HeaderValue`:
horizontal tab, or any byte from 32 on except DEL); every byte of a
multi-byte UTF-8 character is at least 128, so checking code points on
ASCII suffices. -/
def isHeaderValueChar (c : Char) : Bool :=
  c.toNat = 9 || (32 ≤ c.toNat && c.toNat ≠ 127)

/-- `HeaderValue::from_str` (http crate). -/
def headerValueFromStr (s : String) : Option String :=
  if s.data.all isHeaderValueChar then some s else none

/-- The `HeaderMap` of the http crate, modelled as an association list up
to the observations the claims use; `insert` replaces any previous values
of the same (already canonicalized) name. -/
def hmInsert (m : List (String × String)) (k v : String) : List (String × String) :=
  m.filter (fun p => p.1 ≠ k) ++ [(k, v)]

/-- Look up the value stored for a header name. -/
def hmGet (m : List (String × String)) (k : String) : Option String :=
  (m.find? (fun p => p.1 = k)).map Prod.snd

/-! ### base64 (the base64 crate, `general_purpose::STANDARD`) -/

/-- UTF-8 encoding of one character as its byte values. -/
def utf8Bytes (c : Char) : List Nat :=
  let n := c.toNat
  if n < 0x80 then [n]
  else if n < 0x800 then [0xC0 + n / 64, 0x80 + n % 64]
  else if n < 0x10000 then [0xE0 + n / 4096, 0x80 + (n / 64) % 64, 0x80 + n % 64]
  else [0xF0 + n / 262144, 0x80 + (n / 4096) % 64, 0x80 + (n / 64) % 64, 0x80 + n % 64]

/-- The UTF-8 bytes of a string. -/
def strBytes (s : String) : List Nat :=
  (s.data.map utf8Bytes).flatten

/-- The standard base64 alphabet. -/
def b64Char (n : Nat) : Char :=
  (String.data "ABCDEFGHIJKLMNOPQRSTUVWXYZabcdefghijklmnopqrstuvwxyz0123456789+/").getD n 'A'

/-- Standard base64 with padding over a byte list. -/
def b64EncodeBytes : List Nat → List Char
  | b1 :: b2 :: b3 :: rest =>
    let n := b1 % 256 * 65536 + b2 % 256 * 256 + b3 % 256
    b64Char (n / 262144) :: b64Char (n / 4096 % 64) :: b64Char (n / 64 % 64) ::
      b64Char (n % 64) :: b64EncodeBytes rest
  | [b1, b2] =>
    let n := b1 % 256 * 65536 + b2 % 256 * 256
    [b64Char (n / 262144), b64Char (n / 4096 % 64), b64Char (n / 64 % 64), '=']
  | [b1] =>
    let n := b1 % 256 * 65536
    [b64Char (n / 262144), b64Char (n / 4096 % 64), '=', '=']
  | [] => []

/-- `general_purpose::STANDARD.encode` on the UTF-8 bytes of a string. -/
def base64Encode (s : String) : String :=
  String.mk (b64EncodeBytes (strBytes s))

/-! ### urlencoding::encode -/

/-- Unreserved characters kept verbatim by `urlencoding::encode`. -/
def isUrlUnreserved (c : Char) : Bool :=
  let n := c.toNat
  (48 ≤ n && n ≤ 57) || (65 ≤ n && n ≤ 90) || (97 ≤ n && n ≤ 122) ||
  n = 45 || n = 46 || n = 95 || n = 126

/-- One uppercase hexadecimal digit. -/
def hexDigitU (n : Nat) : Char :=
  (String.data "0123456789ABCDEF").getD (n % 16) '0'

/-- `urlencoding::encode`: keep unreserved ASCII, percent-encode every
other UTF-8 byte with uppercase hex. -/
def urlEncode (s : String) : String :=
  String.mk ((s.data.map (fun c =>
    if isUrlUnreserved c then [c]
    else (utf8Bytes c).map (fun b => ['%', hexDigitU (b / 16), hexDigitU b]) |>.flatten)).flatten)

/-! ### make_request -/

/-- The headers-tab fold of make_request (src/network.rs): each enabled
row whose trimmed key parses as a header name and whose trimmed value
parses as a header value is inserted. -/
def buildHeaderMap (headers : KeyValueEntries) : List (String × String) :=
  headers.entries.foldl
    (fun m e =>
      if e.enabled then
        match headerNameFromStr (rustTrim e.key), headerValueFromStr (rustTrim e.value) with
        | some hn, some hv => hmInsert m hn hv
        | _, _ => m
      else m)
    []

/-- One iteration of the authorization fold of make_request
(src/network.rs): the row's key is matched, ASCII-case-insensitively,
against the Bearer/verbatim rule, then the API-key rule, then the
username/password Basic rule; a match inserts into the header map
(`reqwest::header::AUTHORIZATION` is the lowercase name
"authorization").  `auth` is the full entry list, searched for the first
enabled password row by the Basic rule. -/
def authStep (auth : List KeyValueEntry) (m : List (String × String))
    (e : KeyValueEntry) : List (String × String) :=
  if e.enabled then
    if eqIgnoreAsciiCase e.key "Authorization" || eqIgnoreAsciiCase e.key "Bearer" then
      match headerValueFromStr e.value with
      | some hv => hmInsert m "authorization" hv
      | none => m
    else if eqIgnoreAsciiCase e.key "API-Key" || eqIgnoreAsciiCase e.key "X-API-Key" then
      match headerNameFromStr e.key, headerValueFromStr e.value with
      | some hn, some hv => hmInsert m hn hv
      | _, _ => m
    else if eqIgnoreAsciiCase e.key "username" then
      match auth.find? (fun e2 => e2.enabled && eqIgnoreAsciiCase e2.key "password") with
      | some passwordEntry =>
        let credentials := e.value ++ ":" ++ passwordEntry.value
        let encoded := base64Encode credentials
        match headerValueFromStr ("Basic " ++ encoded) with
        | some hv => hmInsert m "authorization" hv
        | none => m
      | none => m
    else m
  else m

/-- The authorization fold of make_request (src/network.rs), over the
header map produced from the headers tab. -/
def applyAuth (m : List (String × String)) (auth : KeyValueEntries) :
    List (String × String) :=
  auth.entries.foldl (authStep auth.entries) m

/-- The query-parameter list of make_request (src/network.rs): enabled
rows, keys and values cloned verbatim. -/
def buildQueryParams (params : KeyValueEntries) : List (String × String) :=
  (params.entries.filter (fun e => e.enabled)).map (fun e => (e.key, e.value))

/-- The final URL of make_request (src/network.rs): the url unchanged when
there are no query parameters, otherwise url "?" then the percent-encoded
pairs joined with "&". -/
def buildFinalUrl (url : String) (queryParams : List (String × String)) : String :=
  if queryParams = [] then url
  else
    url ++ "?" ++
      String.intercalate "&"
        (queryParams.map (fun p => urlEncode p.1 ++ "=" ++ urlEncode p.2))

/-- The deterministic request built by make_request (src/network.rs)
before it is handed to the wire-level transport. -/
structure BuiltRequest where
  method : HttpMethod
  finalUrl : String
  headerMap : List (String × String)
  queryParams : List (String × String)
  contentTypeHeader : Option String
  bodyAttached : Option String
deriving Repr, DecidableEq

/-- The pure request-construction prefix of `make_request`
(src/network.rs): headers-tab fold, query-parameter collection,
authorization fold, URL assembly, and conditional JSON body attachment. -/
def make_request (method : HttpMethod) (url : String)
    (headers params auth : KeyValueEntries) (body_str : String) : BuiltRequest :=
  let headerMap := buildHeaderMap headers
  let queryParams := buildQueryParams params
  let headerMap := applyAuth headerMap auth
  let finalUrl := buildFinalUrl url queryParams
  let attach := rustTrim body_str ≠ ""
  { method := method
    finalUrl := finalUrl
    headerMap := headerMap
    queryParams := queryParams
    contentTypeHeader := if attach then some "application/json" else none
    bodyAttached := if attach then some body_str else none }

/-! ## The JSON validator (src/app.rs `validate_body`)

`validate_body` trims the body text, treats an empty result as valid, and
otherwise hands the untrimmed text to the JSON parser of the external
serde_json dependency, recording the parser's first error location. -/

/-- A source position of the JSON parser.  Modelled from the spec: the
spec's data model states `ValidationResult` carries the "(parse failure
location, 1-based)", so both coordinates start at 1. -/
structure JPos where
  line : Nat
  col : Nat
deriving Repr, DecidableEq

/-- Advance a position over one consumed character. -/
def stepPos (p : JPos) (c : Char) : JPos :=
  if c = '\n' then { line := p.line + 1, col := 1 } else { p with col := p.col + 1 }

/-- JSON insignificant whitespace (space, tab, newline, carriage return). -/
def isJsonWs (c : Char) : Bool :=
  c = ' ' || c = '\t' || c = '\n' || c = '\r'

/-- Skip insignificant whitespace, tracking the position. -/
def skipWs : List Char → JPos → List Char × JPos
  | [], p => ([], p)
  | c :: rest, p =>
    if isJsonWs c then skipWs rest (stepPos p c) else (c :: rest, p)

/-- A parse outcome: an error with its location and message, or the
remaining input with the position reached. -/
abbrev JResult := Except (JPos × String) (List Char × JPos)

/-- Consume an expected keyword (`null`, `true`, `false`) character by
character. -/
def expectLit : List Char → List Char → JPos → JResult
  | [], cs, p => Except.ok (cs, p)
  | _ :: _, [], p => Except.error (p, "EOF while parsing a value")
  | l :: ls, c :: cs, p =>
    if c = l then expectLit ls cs (stepPos p c)
    else Except.error (p, "expected ident")

/-- Hexadecimal digit test for `\u` escapes. -/
def isHexDigitChar (c : Char) : Bool :=
  let n := c.toNat
  (48 ≤ n && n ≤ 57) || (97 ≤ n && n ≤ 102) || (65 ≤ n && n ≤ 70)

/-- Parse the remainder of a JSON string literal, positioned just after
the opening quote. -/
def parseJString : Nat → List Char → JPos → JResult
  | 0, _, p => Except.error (p, "recursion limit exceeded")
  | fuel + 1, cs, p =>
    match cs with
    | [] => Except.error (p, "EOF while parsing a string")
    | c :: rest =>
      if c = '"' then Except.ok (rest, stepPos p c)
      else if c = '\\' then
        match rest with
        | [] => Except.error (stepPos p c, "EOF while parsing a string")
        | e :: rest2 =>
          if e = 'u' then
            match rest2 with
            | h1 :: h2 :: h3 :: h4 :: rest3 =>
              if isHexDigitChar h1 && isHexDigitChar h2 && isHexDigitChar h3 &&
                  isHexDigitChar h4 then
                parseJString fuel rest3 (stepPos (stepPos (stepPos (stepPos
                  (stepPos (stepPos p c) e) h1) h2) h3) h4)
              else Except.error (stepPos (stepPos p c) e, "invalid escape")
            | _ => Except.error (stepPos (stepPos p c) e, "EOF while parsing a string")
          else if e = '"' ∨ e = '\\' ∨ e = '/' ∨ e = 'b' ∨ e = 'f' ∨ e = 'n' ∨
              e = 'r' ∨ e = 't' then
            parseJString fuel rest2 (stepPos (stepPos p c) e)
          else Except.error (stepPos (stepPos p c) e, "invalid escape")
      else if c.toNat < 32 then Except.error (p, "control character in string")
      else parseJString fuel rest (stepPos p c)

/-- Consume a maximal run of decimal digits, returning how many were
consumed. -/
def takeDigits : List Char → JPos → List Char × JPos × Nat
  | [], p => ([], p, 0)
  | c :: rest, p =>
    if c.isDigit then
      let r := takeDigits rest (stepPos p c)
      (r.1, r.2.1, r.2.2 + 1)
    else (c :: rest, p, 0)

/-- Consume an optional exponent sign. -/
def numExpSign (cs : List Char) (p : JPos) : List Char × JPos :=
  match cs with
  | s :: r2 => if s = '+' ∨ s = '-' then (r2, stepPos p s) else (s :: r2, p)
  | [] => ([], p)

/-- The exponent part of a JSON number, if present. -/
def numExp (cs : List Char) (p : JPos) : JResult :=
  match cs with
  | [] => Except.ok ([], p)
  | c :: rest =>
    if c = 'e' ∨ c = 'E' then
      let st := numExpSign rest (stepPos p c)
      let r := takeDigits st.1 st.2
      if r.2.2 = 0 then Except.error (r.2.1, "invalid number") else Except.ok (r.1, r.2.1)
    else Except.ok (c :: rest, p)

/-- The fraction part of a JSON number, if present, then the exponent. -/
def numFrac (cs : List Char) (p : JPos) : JResult :=
  match cs with
  | '.' :: rest =>
    let r := takeDigits rest (stepPos p '.')
    if r.2.2 = 0 then Except.error (r.2.1, "invalid number") else numExp r.1 r.2.1
  | _ => numExp cs p

/-- The unsigned part of a JSON number: a single zero or a digit run,
then fraction and exponent. -/
def parseNumAbs (cs : List Char) (p : JPos) : JResult :=
  match cs with
  | [] => Except.error (p, "EOF while parsing a value")
  | c :: rest =>
    if c = '0' then numFrac rest (stepPos p c)
    else if c.isDigit then
      let r := takeDigits (c :: rest) p
      numFrac r.1 r.2.1
    else Except.error (p, "invalid number")

/-- Parse a JSON number, positioned at its first character (a minus sign
or digit). -/
def parseNumber (cs : List Char) (p : JPos) : JResult :=
  match cs with
  | '-' :: rest => parseNumAbs rest (stepPos p '-')
  | _ => parseNumAbs cs p

/-- Which production the recursive JSON parser is working on: a value,
the elements of an array, or the members of an object. -/
inductive JMode where
  | value
  | elems
  | members
deriving Repr, DecidableEq

/-- The recursive JSON grammar, fuelled to bound nesting depth
(serde_json itself enforces a recursion limit).  `value` expects a JSON
value at the current position; `elems` parses the elements of an array up
to the closing bracket; `members` parses the members of an object up to
the closing brace. -/
def parseJ : Nat → JMode → List Char → JPos → JResult
  | 0, _, _, p => Except.error (p, "recursion limit exceeded")
  | Nat.succ fuel, JMode.value, cs, p =>
    (match cs with
     | [] => Except.error (p, "EOF while parsing a value")
     | c :: rest =>
       if c = 'n' then expectLit ['n', 'u', 'l', 'l'] cs p
       else if c = 't' then expectLit ['t', 'r', 'u', 'e'] cs p
       else if c = 'f' then expectLit ['f', 'a', 'l', 's', 'e'] cs p
       else if c = '"' then parseJString (rest.length + 1) rest (stepPos p c)
       else if c = '-' ∨ c.isDigit then parseNumber cs p
       else if c = '[' then
         let s1 := skipWs rest (stepPos p c)
         match s1.1 with
         | ']' :: r => Except.ok (r, stepPos s1.2 ']')
         | _ => parseJ fuel JMode.elems s1.1 s1.2
       else if c = '{' then
         let s1 := skipWs rest (stepPos p c)
         match s1.1 with
         | '}' :: r => Except.ok (r, stepPos s1.2 '}')
         | _ => parseJ fuel JMode.members s1.1 s1.2
       else Except.error (p, "expected value"))
  | Nat.succ fuel, JMode.elems, cs, p =>
    (match parseJ fuel JMode.value cs p with
     | Except.error e => Except.error e
     | Except.ok (cs1, p1) =>
       let s2 := skipWs cs1 p1
       match s2.1 with
       | ',' :: r =>
         let s3 := skipWs r (stepPos s2.2 ',')
         parseJ fuel JMode.elems s3.1 s3.2
       | ']' :: r => Except.ok (r, stepPos s2.2 ']')
       | [] => Except.error (s2.2, "EOF while parsing a list")
       | _ => Except.error (s2.2, "expected comma or closing bracket"))
  | Nat.succ fuel, JMode.members, cs, p =>
    (match cs with
     | '"' :: rest =>
       (match parseJString (rest.length + 1) rest (stepPos p '"') with
        | Except.error e => Except.error e
        | Except.ok (cs1, p1) =>
          let s2 := skipWs cs1 p1
          match s2.1 with
          | ':' :: r =>
            let s3 := skipWs r (stepPos s2.2 ':')
            (match parseJ fuel JMode.value s3.1 s3.2 with
             | Except.error e => Except.error e
             | Except.ok (cs4, p4) =>
               let s5 := skipWs cs4 p4
               match s5.1 with
               | ',' :: r2 =>
                 let s6 := skipWs r2 (stepPos s5.2 ',')
                 parseJ fuel JMode.members s6.1 s6.2
               | '}' :: r2 => Except.ok (r2, stepPos s5.2 '}')
               | [] => Except.error (s5.2, "EOF while parsing an object")
               | _ => Except.error (s5.2, "expected comma or closing brace"))
          | [] => Except.error (s2.2, "EOF while parsing an object")
          | _ => Except.error (s2.2, "expected colon"))
     | [] => Except.error (p, "EOF while parsing an object")
     | _ => Except.error (p, "key must be a string"))

/-- Modelled from the spec: the JSON parse used by `App::validate_body`
is `serde_json::from_str::<Value>`, an external dependency whose code is
not part of this repository; the spec specifies only its interface
("attempt to parse as JSON", reporting the "first error location",
1-based).  This model parses leading whitespace, one JSON value, trailing
whitespace, and requires end of input; `none` means the text parsed,
`some (line, col, message)` is the first error location. -/
def parseJsonValue (s : String) : Option (Nat × Nat × String) :=
  let cs := s.data
  let s0 := skipWs cs { line := 1, col := 1 }
  match parseJ (2 * cs.length + 2) JMode.value s0.1 s0.2 with
  | Except.error (q, m) => some (q.line, q.col, m)
  | Except.ok (cs1, p1) =>
    let s2 := skipWs cs1 p1
    match s2.1 with
    | [] => none
    | _ => some (s2.2.line, s2.2.col, "trailing characters")

/-- `App::validate_body` (src/app.rs), as a function from the body text to
the recorded validation error: empty-after-trim text is valid, otherwise
the text is handed to the JSON parser. -/
def validate_body (body_text : String) : Option (Nat × Nat × String) :=
  if rustTrim body_text = "" then none
  else parseJsonValue body_text

/-! ## Auxiliary definitions used by the theorem statements -/

/-- The builder state produced by `App::load_from_history` when the entry
at `index` exists: the entry's fields replace the builder fields and the
browsing index points at `index`. -/
def loadState (a : App) (index : Nat) (entry : RequestHistoryEntry) : App :=
  { a with
      method := entry.method
      url_input := entry.url
      headers := entry.headers
      params := entry.params
      authorization := entry.auth
      body_input := set_body_text entry.body
      history_index := some index }

/-- Whether a carriage return immediately followed by a newline occurs in
the character list. -/
def hasCRLF : List Char → Bool
  | c :: rest => (c = '\r' && rest.head? = some '\n') || hasCRLF rest
  | [] => false

/-- Trim the whitespace of both fields of a row. -/
def trimEntry (e : KeyValueEntry) : KeyValueEntry :=
  { e with key := rustTrim e.key, value := rustTrim e.value }

/-- A parser position is well-formed when both coordinates are 1-based. -/
def JPos.within (p : JPos) : Prop :=
  1 ≤ p.line ∧ 1 ≤ p.col

/-- A parse outcome only carries well-formed positions. -/
def jresWithin : JResult → Prop
  | Except.error (q, _) => q.within
  | Except.ok (_, q) => q.within

/-- A concrete history entry whose URL is "http://a". -/
def entryA : RequestHistoryEntry :=
  { method := HttpMethod.GET
    url := "http://a"
    headers := KeyValueEntries.new
    params := KeyValueEntries.new
    auth := KeyValueEntries.new
    body := ""
    timestamp := 0 }

/-- A concrete history entry whose URL is "http://two". -/
def entryB : RequestHistoryEntry :=
  { method := HttpMethod.POST
    url := "http://two"
    headers := KeyValueEntries.new
    params := KeyValueEntries.new
    auth := KeyValueEntries.new
    body := ""
    timestamp := 1 }

/-- A concrete state that is browsing at history index 0 while the URL
field has been edited since that entry was loaded. -/
def c4App : App :=
  { App.new with
      url_input := "changed"
      history := [entryA]
      history_index := some 0 }

/-- A concrete state browsing at history index 0 of a two-entry history. -/
def c5App : App :=
  { App.new with
      history := [entryA, entryB]
      history_index := some 0 }

/-- A table holding the given rows, with the cursor at the origin. -/
def mkTab (es : List KeyValueEntry) : KeyValueEntries :=
  { entries := es, focused_index := 0, focused_field := KeyValueField.key }

/-- An enabled verbatim Authorization row. -/
def authRowTok : KeyValueEntry :=
  { key := "Authorization", value := "tok", enabled := true }

/-- An enabled username row. -/
def userRow : KeyValueEntry :=
  { key := "username", value := "u", enabled := true }

/-- An enabled password row. -/
def pwRow : KeyValueEntry :=
  { key := "password", value := "p", enabled := true }

/-- An Authorization tab holding an enabled verbatim Authorization row
followed by an enabled username/password pair. -/
def c2Auth : KeyValueEntries :=
  { entries := [authRowTok, userRow, pwRow]
    focused_index := 0
    focused_field := KeyValueField.key }

/-- A query-parameter row padded with whitespace on both fields. -/
def padRow : KeyValueEntry :=
  { key := " k ", value := " v ", enabled := true }

/-- An Authorization-tab row whose value is padded with whitespace. -/
def authPadRow : KeyValueEntry :=
  { key := "Authorization", value := " tok ", enabled := true }

/-- A Headers-tab row padded with whitespace on both fields. -/
def headerPadRow : KeyValueEntry :=
  { key := " X-Test ", value := " v ", enabled := true }

/-! ## Supporting lemmas -/

theorem hmGet_hmInsert_self (m : List (String × String)) (k v : String) :
    hmGet (hmInsert m k v) k = some v := by
  have h1 : (m.filter (fun p => p.1 ≠ k)).find? (fun p => p.1 = k) = none := by
    rw [List.find?_eq_none]
    intro x hx
    simp only [List.mem_filter, decide_eq_true_eq] at hx
    simpa using hx.2
  rw [hmGet, hmInsert, List.find?_append, h1]
  simp [List.find?]

theorem eqIC_congr (a b c : String) (h : eqIgnoreAsciiCase a b = true) :
    eqIgnoreAsciiCase a c = eqIgnoreAsciiCase b c := by
  have h2 : a.data.map asciiLower = b.data.map asciiLower := by
    simpa [eqIgnoreAsciiCase] using h
  simp [eqIgnoreAsciiCase, h2]

theorem load_from_history_eq (a : App) (i : Nat) (e : RequestHistoryEntry)
    (h : a.history.get? i = some e) :
    a.load_from_history i = loadState a i e := by
  rw [List.get?_eq_getElem?] at h
  simp [App.load_from_history, h, loadState]

/-! ## Claims -/

/-- Claim C1.  The claimed invariant `focused_index ∈ [0, entries.length]`
is broken by the `KeyCode::Down` handler of run_app: from the virtual
new-row slot (`focused_index = entries.len()`, here the empty Headers tab
of the fresh state, so slot 0) a Down keypress increments the cursor to
`entries.len() + 1` instead of being a no-op, because the source guard is
`focused_index <= entries.len()` rather than a strict comparison. -/
theorem c1_down_escapes_invariant :
    (handleNormalKey { App.new with focused_pane := FocusedPane.requestDetails }
        { code := KeyCode.down, ctrl := false } 0).headers =
      { entries := [], focused_index := 1, focused_field := KeyValueField.key } := by
  decide

/-- Claim C3.  In Navigation mode, the Enter key appends exactly one
history entry holding the current method, url, headers, params, auth and
body text, resets the browsing index to `None`, sets the response text to
the `"Loading..."` sentinel, and leaves every other field of the state
unchanged. -/
theorem c3_submit_snapshot (a : App) (ts : Nat) :
    handleNormalKey a { code := KeyCode.enter, ctrl := false } ts =
      { a with
          history := a.history ++
            [{ method := a.method, url := a.url_input, headers := a.headers,
               params := a.params, auth := a.authorization,
               body := get_body_text a.body_input, timestamp := ts }]
          history_index := none
          response_text := some "Loading..." } := by
  rfl

/-- Claim C6.  A delivered dispatch outcome is reconciled as: success sets
`response_status = Some code` and `response_text = Some body`; failure sets
`response_status = None` and `response_text = Some ("Error: " ++ message)`;
and no outcome ever changes `running`, so no failure terminates the
process. -/
theorem c6_reconcile_outcome :
    (∀ (a : App) (resp : ApiResponse),
        applyResponse a (Except.ok resp) =
          { a with response_status := some resp.status, response_text := some resp.body })
    ∧ (∀ (a : App) (msg : String),
        applyResponse a (Except.error msg) =
          { a with response_status := none, response_text := some ("Error: " ++ msg) })
    ∧ (∀ (a : App) (r : Except String ApiResponse),
        (applyResponse a r).running = a.running) := by
  refine ⟨fun a resp => rfl, fun a msg => rfl, fun a r => ?_⟩
  cases r <;> rfl

/-- Claim C9, counterexample.  The body `" "` is non-empty, yet
make_request attaches neither a Content-Type header nor the body, because
the source tests emptiness only after trimming. -/
theorem c9_counterexample :
    (make_request HttpMethod.GET "u" KeyValueEntries.new KeyValueEntries.new
        KeyValueEntries.new " ").contentTypeHeader = none
    ∧ (make_request HttpMethod.GET "u" KeyValueEntries.new KeyValueEntries.new
        KeyValueEntries.new " ").bodyAttached = none
    ∧ (" " : String) ≠ "" := by
  refine ⟨by decide, by decide, by decide⟩

/-- Claim C9, amended.  make_request attaches the constant header
`Content-Type: application/json` together with the body verbatim exactly
when the body text is non-empty after trimming whitespace; the header
value never depends on the body content. -/
theorem c9_content_type_amended (method : HttpMethod) (url : String)
    (headers params auth : KeyValueEntries) (body_str : String) :
    (make_request method url headers params auth body_str).contentTypeHeader =
      (if rustTrim body_str ≠ "" then some "application/json" else none)
    ∧ (make_request method url headers params auth body_str).bodyAttached =
      (if rustTrim body_str ≠ "" then some body_str else none) := by
  exact ⟨rfl, rfl⟩

theorem isEmpty_false_of_ne_nil {α : Type} {l : List α} (h : l ≠ []) :
    l.isEmpty = false := by
  cases l with
  | nil => exact absurd rfl h
  | cons x xs => rfl

/-- Claim C4, counterexample.  With the browsing cursor at index 0,
`prev_history` is not a no-op: it re-loads entry 0 into the builder, and
here it overwrites the edited URL field, so the state changes. -/
theorem c4_counterexample :
    App.prev_history c4App ≠ c4App
    ∧ (App.prev_history c4App).url_input = "http://a"
    ∧ c4App.history_index = some 0
    ∧ c4App.url_input = "changed" := by
  refine ⟨by decide, by decide, rfl, rfl⟩

/-- Claim C4, amended.  `prev_history` with an empty history changes
nothing; with cursor `None` it loads the last entry and points the cursor
at it; with cursor at index 0 it keeps the cursor at 0 but re-loads entry
0's fields into the builder (overwriting any live edits, rather than
leaving the whole state unchanged); otherwise it decrements the cursor and
loads the entry at the new index. -/
theorem c4_prev_history_amended (a : App) :
    (a.history = [] → a.prev_history = a)
    ∧ (∀ e, a.history_index = none → a.history.getLast? = some e →
        a.prev_history = loadState a (a.history.length - 1) e)
    ∧ (∀ e, a.history_index = some 0 → a.history.get? 0 = some e →
        a.prev_history = loadState a 0 e)
    ∧ (∀ idx e, a.history_index = some (idx + 1) → a.history.get? idx = some e →
        a.prev_history = loadState a idx e) := by
  refine ⟨?_, ?_, ?_, ?_⟩
  · intro h
    simp [App.prev_history, h]
  · intro e h1 h2
    have hne : a.history ≠ [] := by
      intro hh
      rw [hh] at h2
      simp at h2
    have h3 : a.history.get? (a.history.length - 1) = some e := by
      rw [List.get?_eq_getElem?, ← List.getLast?_eq_getElem?]
      exact h2
    simp [App.prev_history, isEmpty_false_of_ne_nil hne, h1,
      load_from_history_eq a (a.history.length - 1) e h3]
  · intro e h1 h2
    have hne : a.history ≠ [] := by
      intro hh
      rw [hh] at h2
      simp at h2
    simp [App.prev_history, isEmpty_false_of_ne_nil hne, h1,
      load_from_history_eq a 0 e h2]
  · intro idx e h1 h2
    have hne : a.history ≠ [] := by
      intro hh
      rw [hh] at h2
      simp at h2
    simp [App.prev_history, isEmpty_false_of_ne_nil hne, h1,
      load_from_history_eq a idx e h2]

/-- Claim C4, witness: the amended statement applied to the concrete
cursor-at-0 state. -/
theorem c4_prev_history_amended_witness :
    App.prev_history c4App = loadState c4App 0 entryA :=
  (c4_prev_history_amended c4App).2.2.1 entryA rfl rfl

/-- Claim C5.  `next_history` with cursor `None` is a no-op; with the
cursor at the last index it clears the cursor to `None` and touches no
other field (no entry is re-loaded); otherwise it increments the cursor
and loads the entry at the new index. -/
theorem c5_next_history (a : App) :
    (a.history_index = none → a.next_history = a)
    ∧ (a.history ≠ [] → a.history_index = some (a.history.length - 1) →
        a.next_history = { a with history_index := none })
    ∧ (∀ idx e, a.history_index = some idx → idx + 1 < a.history.length →
        a.history.get? (idx + 1) = some e →
        a.next_history = loadState a (idx + 1) e) := by
  refine ⟨?_, ?_, ?_⟩
  · intro h
    by_cases hh : a.history.isEmpty
    · simp [App.next_history, hh]
    · simp [App.next_history, hh, h]
  · intro hne h1
    simp [App.next_history, isEmpty_false_of_ne_nil hne, h1]
  · intro idx e h1 h2 h3
    have hne : a.history ≠ [] := by
      intro hh
      rw [hh] at h2
      simp at h2
    have hge : ¬ (idx ≥ a.history.length - 1) := by omega
    simp [App.next_history, isEmpty_false_of_ne_nil hne, h1, hge,
      load_from_history_eq a (idx + 1) e h3]

/-- Claim C5, witness: the increment-and-load case applied to the
concrete two-entry state browsing at index 0. -/
theorem c5_next_history_witness :
    App.next_history c5App = loadState c5App 1 entryB :=
  (c5_next_history c5App).2.2 0 entryB rfl (by decide) rfl

/-- Claim C2, counterexample.  The Authorization tab holds an enabled row
whose key is literally "Authorization" with value "tok", yet the request's
Authorization header is the Basic credential produced by the
username/password rows that come later in the tab: the scan is not
first-match-wins, a later lower-precedence match overwrites. -/
theorem c2_counterexample :
    hmGet (make_request HttpMethod.GET "u" KeyValueEntries.new
        KeyValueEntries.new c2Auth "").headerMap "authorization" =
      some "Basic dTpw"
    ∧ c2Auth.entries.head? = some authRowTok
    ∧ authRowTok.key = "Authorization"
    ∧ authRowTok.enabled = true
    ∧ ("Basic dTpw" : String) ≠ "tok" := by
  refine ⟨by decide, rfl, rfl, rfl, by decide⟩

/-- Claim C2, amended.  make_request scans the enabled Authorization-tab
rows in order, matching each row (ASCII-case-insensitively) against the
Authorization/Bearer rule, then the API-key rule, then the
username-with-password Basic rule, and each match inserts into the header
map, overwriting any earlier match: the last matching row wins, not the
first.  In particular a final enabled Authorization/Bearer row always
determines the header verbatim, and a final enabled username row (with
some enabled password row present) always yields the Basic credential,
regardless of any earlier higher-precedence rows. -/
theorem c2_auth_last_match_wins (rows : List KeyValueEntry)
    (e : KeyValueEntry) (m : List (String × String)) (he : e.enabled = true) :
    ((eqIgnoreAsciiCase e.key "Authorization" || eqIgnoreAsciiCase e.key "Bearer") = true →
      headerValueFromStr e.value = some e.value →
      hmGet (applyAuth m (mkTab (rows ++ [e]))) "authorization" = some e.value)
    ∧ (∀ pe, eqIgnoreAsciiCase e.key "username" = true →
        (rows ++ [e]).find?
            (fun e2 => e2.enabled && eqIgnoreAsciiCase e2.key "password") = some pe →
        headerValueFromStr ("Basic " ++ base64Encode (e.value ++ ":" ++ pe.value)) =
          some ("Basic " ++ base64Encode (e.value ++ ":" ++ pe.value)) →
        hmGet (applyAuth m (mkTab (rows ++ [e]))) "authorization" =
          some ("Basic " ++ base64Encode (e.value ++ ":" ++ pe.value))) := by
  constructor
  · intro h1 h2
    rw [applyAuth]
    simp only [mkTab]
    simp only [List.foldl_append, List.foldl_cons, List.foldl_nil]
    rw [authStep, if_pos he, if_pos h1, h2]
    exact hmGet_hmInsert_self _ _ _
  · intro pe hu hfind hval
    have k1 : eqIgnoreAsciiCase e.key "Authorization" = false := by
      rw [eqIC_congr _ _ _ hu]
      decide
    have k2 : eqIgnoreAsciiCase e.key "Bearer" = false := by
      rw [eqIC_congr _ _ _ hu]
      decide
    have k3 : eqIgnoreAsciiCase e.key "API-Key" = false := by
      rw [eqIC_congr _ _ _ hu]
      decide
    have k4 : eqIgnoreAsciiCase e.key "X-API-Key" = false := by
      rw [eqIC_congr _ _ _ hu]
      decide
    rw [applyAuth]
    simp only [mkTab]
    simp only [List.foldl_append, List.foldl_cons, List.foldl_nil]
    rw [authStep, if_pos he]
    rw [k1, k2, k3, k4]
    simp only [Bool.or_false, Bool.false_or, if_neg (by simp : ¬ (false = true))]
    rw [if_pos hu, hfind]
    simp only [hval, hmGet_hmInsert_self]

/-- Claim C2, witness: the amended statement applied to a tab whose last
row is the username row, preceded by a verbatim Authorization row and the
password row; the Basic credential wins. -/
theorem c2_auth_last_match_wins_witness :
    hmGet (applyAuth [] (mkTab ([authRowTok, pwRow] ++ [userRow]))) "authorization" =
      some ("Basic " ++ base64Encode (userRow.value ++ ":" ++ pwRow.value)) :=
  (c2_auth_last_match_wins [authRowTok, pwRow] userRow [] rfl).2 pwRow
    (by decide) (by decide) (by decide)

theorem linesAux_ne_nil (cs : List Char) : ∀ acc : List Char,
    cs.getLast? ≠ some '\n' → (cs = [] → acc ≠ []) → linesAux acc cs ≠ [] := by
  induction cs with
  | nil =>
    intro acc _ h2
    have hne := h2 rfl
    simp [linesAux, isEmpty_false_of_ne_nil hne]
  | cons c rest ih =>
    intro acc h1 _
    by_cases hc : c = '\n'
    · subst hc
      simp [linesAux]
    · rw [show linesAux acc (c :: rest) = linesAux (c :: acc) rest from by
        simp [linesAux, hc]]
      apply ih (c :: acc)
      · cases hr : rest with
        | nil => simp
        | cons x xs =>
          rw [hr] at h1
          rwa [List.getLast?_cons_cons] at h1
      · intro _
        simp

theorem joinNl_cons (l : List Char) (ls : List (List Char)) (h : ls ≠ []) :
    joinNl (l :: ls) = l ++ '\n' :: joinNl ls := by
  cases ls with
  | nil => exact absurd rfl h
  | cons x xs => rfl

theorem joinNl_linesAux (cs : List Char) : ∀ acc : List Char,
    hasCRLF cs = false →
    (∀ rest, cs = '\n' :: rest → acc.head? ≠ some '\r') →
    cs.getLast? ≠ some '\n' →
    (cs = [] → acc ≠ []) →
    joinNl (linesAux acc cs) = acc.reverse ++ cs := by
  induction cs with
  | nil =>
    intro acc _ _ _ h4
    have hne := h4 rfl
    simp [linesAux, isEmpty_false_of_ne_nil hne, joinNl]
  | cons c rest ih =>
    intro acc h1 h2 h3 _
    by_cases hc : c = '\n'
    · subst hc
      have hrne : rest ≠ [] := by
        intro hr
        subst hr
        simp at h3
      have hacc : acc.head? ≠ some '\r' := h2 rest rfl
      have hstrip : stripCRL acc.reverse = acc.reverse := by
        rw [stripCRL, if_neg]
        rw [List.getLast?_reverse]
        exact hacc
      have hrlast : rest.getLast? ≠ some '\n' := by
        cases hr : rest with
        | nil => simp
        | cons x xs =>
          rw [hr] at h3
          rwa [List.getLast?_cons_cons] at h3
      have hCR : hasCRLF rest = false := by
        simpa [hasCRLF] using h1
      have hne2 : linesAux [] rest ≠ [] :=
        linesAux_ne_nil rest [] hrlast (fun hr => absurd hr hrne)
      rw [show linesAux acc ('\n' :: rest) = stripCRL acc.reverse :: linesAux [] rest from by
        simp [linesAux]]
      rw [joinNl_cons _ _ hne2, hstrip]
      rw [ih [] hCR (fun r hr => by simp) hrlast (fun hr => absurd hr hrne)]
      simp
    · have h1p : hasCRLF rest = false := by
        have h := h1
        simp [hasCRLF] at h
        exact h.2
      have hnotCR : ∀ r2, rest = '\n' :: r2 → (c :: acc).head? ≠ some '\r' := by
        intro r2 hr
        have h := h1
        simp [hasCRLF] at h
        have hcr : c ≠ '\r' := by
          intro hceq
          have hh : rest.head? = some '\n' := by rw [hr]; rfl
          exact absurd (h.1 hceq) (by simp [hh])
        simp [hcr]
      have hrlast : rest.getLast? ≠ some '\n' := by
        cases hr : rest with
        | nil => simp
        | cons x xs =>
          rw [hr] at h3
          rwa [List.getLast?_cons_cons] at h3
      rw [show linesAux acc (c :: rest) = linesAux (c :: acc) rest from by
        simp [linesAux, hc]]
      rw [ih (c :: acc) h1p hnotCR hrlast (fun hr => by simp)]
      simp

/-- Claim C8, counterexample.  The string "a\r\nb" does not end with a
newline, yet the set/get round-trip of the body buffer returns "a\nb":
the line splitter strips the carriage return preceding the newline. -/
theorem c8_counterexample :
    get_body_text (set_body_text "a\r\nb") = "a\nb"
    ∧ ("a\nb" : String) ≠ "a\r\nb"
    ∧ ("a\r\nb" : String).data.getLast? ≠ some '\n' := by
  refine ⟨by decide, by decide, by decide⟩

/-- Claim C8, amended.  For every string that does not end with a newline
and contains no carriage-return-newline pair, `get_body_text` after
`set_body_text` returns exactly the original string (this includes the
empty string and multi-line strings). -/
theorem c8_roundtrip_amended (s : String)
    (h1 : s.data.getLast? ≠ some '\n') (h2 : hasCRLF s.data = false) :
    get_body_text (set_body_text s) = s := by
  cases s with
  | mk cs =>
    rw [get_body_text, set_body_text, List.map_map]
    have hmaps : (textAreaNewL (rustLinesL cs)).map (String.data ∘ String.mk) =
        textAreaNewL (rustLinesL cs) := by
      have : (String.data ∘ String.mk) = fun l : List Char => l := rfl
      rw [this]
      exact List.map_id _
    rw [hmaps]
    have hjoin : joinNl (textAreaNewL (rustLinesL cs)) = cs := by
      by_cases hcs : cs = []
      · subst hcs
        rfl
      · have hne : rustLinesL cs ≠ [] :=
          linesAux_ne_nil cs [] h1 (fun h => absurd h hcs)
        rw [textAreaNewL, if_neg hne, rustLinesL]
        have := joinNl_linesAux cs [] h2 (fun r hr => by simp) h1 (fun h => absurd h hcs)
        simpa using this
    rw [hjoin]

/-- Claim C8, witness: the amended round-trip applied to the concrete
two-line string "a\nb". -/
theorem c8_roundtrip_amended_witness :
    get_body_text (set_body_text "a\nb") = "a\nb" :=
  c8_roundtrip_amended "a\nb" (by decide) (by decide)

theorem dropWhile_dropWhile {α : Type} (p : α → Bool) (l : List α) :
    (l.dropWhile p).dropWhile p = l.dropWhile p := by
  induction l with
  | nil => rfl
  | cons a l ih =>
    by_cases h : p a = true
    · simp [List.dropWhile_cons, h, ih]
    · simp [List.dropWhile_cons, h]

theorem head?_dropWhile_false {α : Type} (p : α → Bool) (l : List α) (a : α)
    (h : (l.dropWhile p).head? = some a) : p a = false := by
  induction l with
  | nil => simp at h
  | cons b l ih =>
    by_cases hb : p b = true
    · rw [List.dropWhile_cons, if_pos hb] at h
      exact ih h
    · rw [List.dropWhile_cons, if_neg hb] at h
      simp at h
      rw [← h]
      simpa using hb

theorem getLast?_dropWhile {α : Type} (p : α → Bool) (l : List α)
    (h : l.dropWhile p ≠ []) : (l.dropWhile p).getLast? = l.getLast? := by
  conv_rhs => rw [← List.takeWhile_append_dropWhile p l]
  rw [List.getLast?_append]
  cases h2 : (l.dropWhile p).getLast? with
  | none =>
    rw [List.getLast?_eq_none_iff] at h2
    exact absurd h2 h
  | some x => simp

theorem trimL_eq_self (l : List Char)
    (hh : ∀ a, l.head? = some a → rustIsWhitespace a = false)
    (hl : ∀ a, l.getLast? = some a → rustIsWhitespace a = false) :
    trimL l = l := by
  have h1 : l.dropWhile rustIsWhitespace = l := by
    cases hc : l with
    | nil => rfl
    | cons x xs =>
      have hx := hh x (by rw [hc]; rfl)
      rw [List.dropWhile_cons, if_neg (by simp [hx])]
  have h2 : l.reverse.dropWhile rustIsWhitespace = l.reverse := by
    cases hc : l.reverse with
    | nil => rfl
    | cons x xs =>
      have hx := hl x (by rw [← List.head?_reverse, hc]; rfl)
      rw [List.dropWhile_cons, if_neg (by simp [hx])]
  rw [trimL, h1, h2, List.reverse_reverse]

theorem trimL_head_false (l : List Char) (a : Char)
    (h : (trimL l).head? = some a) : rustIsWhitespace a = false := by
  rw [trimL, List.head?_reverse] at h
  have hne : (l.dropWhile rustIsWhitespace).reverse.dropWhile rustIsWhitespace ≠ [] := by
    intro h0
    rw [h0] at h
    simp at h
  rw [getLast?_dropWhile _ _ hne, List.getLast?_reverse] at h
  exact head?_dropWhile_false _ _ _ h

theorem trimL_getLast_false (l : List Char) (a : Char)
    (h : (trimL l).getLast? = some a) : rustIsWhitespace a = false := by
  rw [trimL, List.getLast?_reverse] at h
  exact head?_dropWhile_false _ _ _ h

theorem trimL_idem (l : List Char) : trimL (trimL l) = trimL l :=
  trimL_eq_self (trimL l) (trimL_head_false l) (trimL_getLast_false l)

theorem rustTrim_idem (s : String) : rustTrim (rustTrim s) = rustTrim s :=
  congrArg String.mk (trimL_idem s.data)

theorem buildHeaderMap_trim (h : KeyValueEntries) :
    buildHeaderMap { h with entries := h.entries.map trimEntry } = buildHeaderMap h := by
  rw [buildHeaderMap, buildHeaderMap]
  suffices hgen : ∀ (es : List KeyValueEntry) (m : List (String × String)),
      (es.map trimEntry).foldl
        (fun m e =>
          if e.enabled then
            match headerNameFromStr (rustTrim e.key), headerValueFromStr (rustTrim e.value) with
            | some hn, some hv => hmInsert m hn hv
            | _, _ => m
          else m) m =
      es.foldl
        (fun m e =>
          if e.enabled then
            match headerNameFromStr (rustTrim e.key), headerValueFromStr (rustTrim e.value) with
            | some hn, some hv => hmInsert m hn hv
            | _, _ => m
          else m) m by
    exact hgen h.entries []
  intro es
  induction es with
  | nil => intro m; rfl
  | cons e es ih =>
    intro m
    simp only [List.map_cons, List.foldl_cons]
    rw [show trimEntry e = { e with key := rustTrim e.key, value := rustTrim e.value } from rfl]
    simp only [rustTrim_idem]
    exact ih _

/-- Claim C10.  make_request trims both fields of each enabled Headers-tab
row before encoding (so padded rows yield the same header map as their
trimmed forms), while query-parameter keys/values and Authorization-tab
values enter the request verbatim, untrimmed; the function reads the
tables without modifying them. -/
theorem c10_trim_headers_only :
    (∀ (method : HttpMethod) (url : String) (hh pp aa : KeyValueEntries) (b : String),
        (make_request method url { hh with entries := hh.entries.map trimEntry } pp aa b).headerMap =
          (make_request method url hh pp aa b).headerMap)
    ∧ (make_request HttpMethod.GET "u" KeyValueEntries.new (mkTab [padRow])
        KeyValueEntries.new "").queryParams = [(" k ", " v ")]
    ∧ hmGet (make_request HttpMethod.GET "u" KeyValueEntries.new KeyValueEntries.new
        (mkTab [authPadRow]) "").headerMap "authorization" = some " tok "
    ∧ hmGet (make_request HttpMethod.GET "u" (mkTab [headerPadRow]) KeyValueEntries.new
        KeyValueEntries.new "").headerMap "x-test" = some "v" := by
  refine ⟨?_, by decide, by decide, by decide⟩
  intro method url hh pp aa b
  simp only [make_request]
  rw [buildHeaderMap_trim]

theorem stepPos_within (p : JPos) (c : Char) (h : p.within) : (stepPos p c).within := by
  obtain ⟨h1, h2⟩ := h
  rw [stepPos]
  split
  · exact ⟨Nat.le_succ_of_le h1, Nat.le_refl 1⟩
  · exact ⟨h1, Nat.le_succ_of_le h2⟩

theorem skipWs_within : ∀ (cs : List Char) (p : JPos), p.within → (skipWs cs p).2.within := by
  intro cs
  induction cs with
  | nil => intro p h; exact h
  | cons c rest ih =>
    intro p h
    simp only [skipWs]
    split
    · exact ih _ (stepPos_within _ _ h)
    · exact h

theorem expectLit_within : ∀ (ls cs : List Char) (p : JPos), p.within →
    jresWithin (expectLit ls cs p) := by
  intro ls
  induction ls with
  | nil => intro cs p h; exact h
  | cons l ls ih =>
    intro cs p h
    cases cs with
    | nil => exact h
    | cons c cs =>
      simp only [expectLit]
      split
      · exact ih _ _ (stepPos_within _ _ h)
      · exact h

theorem parseJString_within : ∀ (fuel : Nat) (cs : List Char) (p : JPos), p.within →
    jresWithin (parseJString fuel cs p) := by
  intro fuel
  induction fuel with
  | zero => intro cs p h; exact h
  | succ fuel ih =>
    intro cs p h
    simp only [parseJString]
    split
    · exact h
    · split
      · exact stepPos_within _ _ h
      · split
        · split
          · exact stepPos_within _ _ h
          · split
            · split
              · split
                · exact ih _ _ (stepPos_within _ _ (stepPos_within _ _ (stepPos_within _ _
                    (stepPos_within _ _ (stepPos_within _ _ (stepPos_within _ _ h))))))
                · exact stepPos_within _ _ (stepPos_within _ _ h)
              · exact stepPos_within _ _ (stepPos_within _ _ h)
            · split
              · exact ih _ _ (stepPos_within _ _ (stepPos_within _ _ h))
              · exact stepPos_within _ _ (stepPos_within _ _ h)
        · split
          · exact h
          · exact ih _ _ (stepPos_within _ _ h)

theorem takeDigits_within : ∀ (cs : List Char) (p : JPos), p.within →
    (takeDigits cs p).2.1.within := by
  intro cs
  induction cs with
  | nil => intro p h; exact h
  | cons c rest ih =>
    intro p h
    simp only [takeDigits]
    split
    · exact ih _ (stepPos_within _ _ h)
    · exact h

theorem numExpSign_within (cs : List Char) (p : JPos) (h : p.within) :
    (numExpSign cs p).2.within := by
  simp only [numExpSign]
  split
  · split
    · exact stepPos_within _ _ h
    · exact h
  · exact h

theorem numExp_within (cs : List Char) (p : JPos) (h : p.within) :
    jresWithin (numExp cs p) := by
  simp only [numExp]
  split
  · exact h
  · split
    · split
      · exact takeDigits_within _ _ (numExpSign_within _ _ (stepPos_within _ _ h))
      · exact takeDigits_within _ _ (numExpSign_within _ _ (stepPos_within _ _ h))
    · exact h

theorem numFrac_within (cs : List Char) (p : JPos) (h : p.within) :
    jresWithin (numFrac cs p) := by
  simp only [numFrac]
  split
  · split
    · exact takeDigits_within _ _ (stepPos_within _ _ h)
    · exact numExp_within _ _ (takeDigits_within _ _ (stepPos_within _ _ h))
  · exact numExp_within _ _ h

theorem parseNumAbs_within (cs : List Char) (p : JPos) (h : p.within) :
    jresWithin (parseNumAbs cs p) := by
  simp only [parseNumAbs]
  split
  · exact h
  · split
    · exact numFrac_within _ _ (stepPos_within _ _ h)
    · split
      · exact numFrac_within _ _ (takeDigits_within _ _ h)
      · exact h

theorem parseNumber_within (cs : List Char) (p : JPos) (h : p.within) :
    jresWithin (parseNumber cs p) := by
  simp only [parseNumber]
  split
  · exact parseNumAbs_within _ _ (stepPos_within _ _ h)
  · exact parseNumAbs_within _ _ h

theorem parseJ_within : ∀ (fuel : Nat) (mode : JMode) (cs : List Char) (p : JPos),
    p.within → jresWithin (parseJ fuel mode cs p) := by
  intro fuel
  induction fuel with
  | zero => intro mode cs p h; exact h
  | succ fuel ih =>
    intro mode cs p h
    cases mode with
    | value =>
      simp only [parseJ]
      split
      · exact h
      · split
        · exact expectLit_within _ _ _ h
        · split
          · exact expectLit_within _ _ _ h
          · split
            · exact expectLit_within _ _ _ h
            · split
              · exact parseJString_within _ _ _ (stepPos_within _ _ h)
              · split
                · exact parseNumber_within _ _ h
                · split
                  · split
                    · exact stepPos_within _ _ (skipWs_within _ _ (stepPos_within _ _ h))
                    · exact ih _ _ _ (skipWs_within _ _ (stepPos_within _ _ h))
                  · split
                    · split
                      · exact stepPos_within _ _ (skipWs_within _ _ (stepPos_within _ _ h))
                      · exact ih _ _ _ (skipWs_within _ _ (stepPos_within _ _ h))
                    · exact h
    | elems =>
      simp only [parseJ]
      split
      · rename_i e heq
        have hv := ih JMode.value cs p h
        rw [heq] at hv
        exact hv
      · rename_i cs1 p1 heq
        have hv := ih JMode.value cs p h
        rw [heq] at hv
        split
        · exact ih _ _ _ (skipWs_within _ _ (stepPos_within _ _ (skipWs_within _ _ hv)))
        · exact stepPos_within _ _ (skipWs_within _ _ hv)
        · exact skipWs_within _ _ hv
        · exact skipWs_within _ _ hv
    | members =>
      simp only [parseJ]
      split
      · rename_i rest
        split
        · rename_i e heq
          have hs := parseJString_within (rest.length + 1) rest (stepPos p '"')
            (stepPos_within p '"' h)
          rw [heq] at hs
          exact hs
        · rename_i cs1 p1 heq
          have hs := parseJString_within (rest.length + 1) rest (stepPos p '"')
            (stepPos_within p '"' h)
          rw [heq] at hs
          split
          · rename_i r hcol
            split
            · rename_i e2 heq2
              have hv := ih JMode.value ((skipWs r (stepPos (skipWs cs1 p1).2 ':')).1)
                ((skipWs r (stepPos (skipWs cs1 p1).2 ':')).2)
                (skipWs_within _ _ (stepPos_within _ _ (skipWs_within _ _ hs)))
              rw [heq2] at hv
              exact hv
            · rename_i cs4 p4 heq2
              have hv := ih JMode.value ((skipWs r (stepPos (skipWs cs1 p1).2 ':')).1)
                ((skipWs r (stepPos (skipWs cs1 p1).2 ':')).2)
                (skipWs_within _ _ (stepPos_within _ _ (skipWs_within _ _ hs)))
              rw [heq2] at hv
              split
              · exact ih _ _ _ (skipWs_within _ _ (stepPos_within _ _ (skipWs_within _ _ hv)))
              · exact stepPos_within _ _ (skipWs_within _ _ hv)
              · exact skipWs_within _ _ hv
              · exact skipWs_within _ _ hv
          · exact skipWs_within _ _ hs
          · exact skipWs_within _ _ hs
      · exact h
      · exact h

theorem parseJsonValue_within (s : String) (l c : Nat) (m : String)
    (h : parseJsonValue s = some (l, c, m)) : 1 ≤ l ∧ 1 ≤ c := by
  have h0 : JPos.within { line := 1, col := 1 } := ⟨le_refl 1, le_refl 1⟩
  have hw := skipWs_within s.data { line := 1, col := 1 } h0
  have hp := parseJ_within (2 * s.data.length + 2) JMode.value
    (skipWs s.data { line := 1, col := 1 }).1 (skipWs s.data { line := 1, col := 1 }).2 hw
  rw [parseJsonValue] at h
  split at h
  · rename_i q msg heq
    rw [heq] at hp
    simp only [Option.some.injEq, Prod.mk.injEq] at h
    obtain ⟨h1, h2, _⟩ := h
    subst h1
    subst h2
    exact hp
  · rename_i cs1 p1 heq
    rw [heq] at hp
    dsimp only at h
    split at h
    · exact absurd h (by simp)
    · simp only [Option.some.injEq, Prod.mk.injEq] at h
      obtain ⟨h1, h2, _⟩ := h
      subst h1
      subst h2
      exact skipWs_within _ _ hp

/-- Claim C7.  `validate_body` yields `None` for empty and
whitespace-only bodies and for valid JSON, and for non-empty invalid text
it yields `Some (line, column, message)` with a 1-based location
(`line ≥ 1` and `column ≥ 1`), as at the concrete failing body
consisting of an open brace, the quoted key a, a colon and a close brace,
whose first error is reported at line 1, column 6. -/
theorem c7_validate_body :
    validate_body "" = none
    ∧ validate_body "   " = none
    ∧ validate_body "\x7b\"a\":1\x7d" = none
    ∧ validate_body "\x7b\"a\":\x7d" = some (1, 6, "expected value")
    ∧ (∀ (s : String) (l c : Nat) (m : String),
        validate_body s = some (l, c, m) → 1 ≤ l ∧ 1 ≤ c) := by
  refine ⟨by decide, by decide, by decide, by decide, ?_⟩
  intro s l c m h
  rw [validate_body] at h
  split at h
  · exact absurd h (by simp)
  · exact parseJsonValue_within s l c m h

/-- Claim C7, witness: the location bound applied to the concrete invalid
body, whose error is at line 1, column 6. -/
theorem c7_validate_body_witness :
    validate_body "\x7b\"a\":\x7d" = some (1, 6, "expected value")
    ∧ (1 ≤ 1 ∧ 1 ≤ 6) :=
  ⟨by decide,
    c7_validate_body.2.2.2.2 "\x7b\"a\":\x7d" 1 6 "expected value" (by decide)⟩

end CrustyRequest
